import Mathlib

/-!
Verification of the deterministic secret-derivation core of the encryptio
repository (a Svelte codename generator built on `crypto.service.ts` /
`webauthn.service.ts`, and a Vue/Pinia YubiKey password generator built on
`stores/passwords.ts` / `stores/webauthn.ts`).

Bytes are modelled as `Nat` (values kept below 256 by construction: every
byte produced here is some `x % 256`, a UTF-8 code unit, or an input byte).
`Uint8Array` values are modelled as `List Nat`; JS strings as `String`.
All definitions are translated from the TypeScript source; the one
spec-derived definition (`specVersionedSeedDerive`, used to compare the code
against the described versioned derivation) is marked as such.
-/

/- ## SHA-256 over byte lists (the model of `crypto.subtle.digest("SHA-256", _)`) -/

/-- Modulus for 32-bit words. -/
def wordMod : Nat := 4294967296

/-- Right rotation of a 32-bit word. -/
def rotr (n x : Nat) : Nat := ((x >>> n) ||| (x <<< (32 - n))) % wordMod

/-- Logical right shift. -/
def shr (n x : Nat) : Nat := x >>> n

/-- SHA-256 Σ0. -/
def bigSigma0 (x : Nat) : Nat := (rotr 2 x) ^^^ (rotr 13 x) ^^^ (rotr 22 x)

/-- SHA-256 Σ1. -/
def bigSigma1 (x : Nat) : Nat := (rotr 6 x) ^^^ (rotr 11 x) ^^^ (rotr 25 x)

/-- SHA-256 σ0. -/
def smallSigma0 (x : Nat) : Nat := (rotr 7 x) ^^^ (rotr 18 x) ^^^ (shr 3 x)

/-- SHA-256 σ1. -/
def smallSigma1 (x : Nat) : Nat := (rotr 17 x) ^^^ (rotr 19 x) ^^^ (shr 10 x)

/-- SHA-256 Ch; complement taken inside 32 bits. -/
def chFn (x y z : Nat) : Nat := (x &&& y) ^^^ ((x ^^^ 4294967295) &&& z)

/-- SHA-256 Maj. -/
def majFn (x y z : Nat) : Nat := (x &&& y) ^^^ (x &&& z) ^^^ (y &&& z)

/-- The 64 SHA-256 round constants of FIPS 180-4, written in decimal. -/
def K64 : List Nat :=
  [1116352408, 1899447441, 3049323471, 3921009573, 961987163,
   1508970993, 2453635748, 2870763221, 3624381080, 310598401,
   607225278, 1426881987, 1925078388, 2162078206, 2614888103,
   3248222580, 3835390401, 4022224774, 264347078, 604807628,
   770255983, 1249150122, 1555081692, 1996064986, 2554220882,
   2821834349, 2952996808, 3210313671, 3336571891, 3584528711,
   113926993, 338241895, 666307205, 773529912, 1294757372,
   1396182291, 1695183700, 1986661051, 2177026350, 2456956037,
   2730485921, 2820302411, 3259730800, 3345764771, 3516065817,
   3600352804, 4094571909, 275423344, 430227734, 506948616,
   659060556, 883997877, 958139571, 1322822218, 1537002063,
   1747873779, 1955562222, 2024104815, 2227730452, 2361852424,
   2428436474, 2756734187, 3204031479, 3329325298]

/-- The eight 32-bit words of a SHA-256 chaining state. -/
structure Hash8 where
  a : Nat
  b : Nat
  c : Nat
  d : Nat
  e : Nat
  f : Nat
  g : Nat
  h : Nat

/-- SHA-256 initial state (the FIPS 180-4 initial hash values, in decimal). -/
def initH : Hash8 :=
  ⟨1779033703, 3144134277, 1013904242, 2773480762,
   1359893119, 2600822924, 528734635, 1541459225⟩

/-- Big-endian 8-byte encoding of a natural number (the padded bit length). -/
def beBytes8 (n : Nat) : List Nat :=
  [(n >>> 56) % 256, (n >>> 48) % 256, (n >>> 40) % 256, (n >>> 32) % 256,
   (n >>> 24) % 256, (n >>> 16) % 256, (n >>> 8) % 256, n % 256]

/-- SHA-256 padding: append 0x80, zero bytes up to 56 mod 64, and the bit length. -/
def padMessage (msg : List Nat) : List Nat :=
  msg ++ [128] ++ List.replicate ((55 + 64 - msg.length % 64) % 64) 0 ++ beBytes8 (msg.length * 8)

/-- Split a byte list into 64-byte blocks; the first argument is recursion
fuel, always instantiated with the list length (ample, since every step
consumes a nonempty list). -/
def toBlocksAux : Nat → List Nat → List (List Nat)
  | 0, _ => []
  | _, [] => []
  | fuel + 1, l => l.take 64 :: toBlocksAux fuel (l.drop 64)

/-- Split a byte list into 64-byte blocks. -/
def toBlocks (l : List Nat) : List (List Nat) := toBlocksAux l.length l

/-- Big-endian 32-bit words from bytes. -/
def bytesToWords : List Nat → List Nat
  | b0 :: b1 :: b2 :: b3 :: rest =>
      (b0 * 16777216 + b1 * 65536 + b2 * 256 + b3) :: bytesToWords rest
  | _ => []

/-- Extend the 16-word message schedule by the given number of words. -/
def extendSchedule : Nat → List Nat → List Nat
  | 0, w => w
  | n + 1, w =>
      let i := w.length
      let next := (w.getD (i - 16) 0 + smallSigma0 (w.getD (i - 15) 0) +
                   w.getD (i - 7) 0 + smallSigma1 (w.getD (i - 2) 0)) % wordMod
      extendSchedule n (w ++ [next])

/-- One SHA-256 round. -/
def roundFn (st : Hash8) (kw : Nat × Nat) : Hash8 :=
  let t1 := (st.h + bigSigma1 st.e + chFn st.e st.f st.g + kw.1 + kw.2) % wordMod
  let t2 := (bigSigma0 st.a + majFn st.a st.b st.c) % wordMod
  ⟨(t1 + t2) % wordMod, st.a, st.b, st.c, (st.d + t1) % wordMod, st.e, st.f, st.g⟩

/-- SHA-256 compression of one 64-byte block. -/
def compressBlock (st : Hash8) (block : List Nat) : Hash8 :=
  let w := extendSchedule 48 (bytesToWords block)
  let r := (K64.zip w).foldl roundFn st
  ⟨(st.a + r.a) % wordMod, (st.b + r.b) % wordMod, (st.c + r.c) % wordMod, (st.d + r.d) % wordMod,
   (st.e + r.e) % wordMod, (st.f + r.f) % wordMod, (st.g + r.g) % wordMod, (st.h + r.h) % wordMod⟩

/-- Big-endian bytes of one 32-bit word. -/
def wordBytes (w : Nat) : List Nat :=
  [(w >>> 24) % 256, (w >>> 16) % 256, (w >>> 8) % 256, w % 256]

/-- SHA-256 digest of a byte list; checked against FIPS 180-4 test vectors during
development (digest of "abc" and of the empty message). -/
def sha256 (msg : List Nat) : List Nat :=
  let st := (toBlocks (padMessage msg)).foldl compressBlock initH
  wordBytes st.a ++ wordBytes st.b ++ wordBytes st.c ++ wordBytes st.d ++
  wordBytes st.e ++ wordBytes st.f ++ wordBytes st.g ++ wordBytes st.h

/- ## UTF-8 (the model of `new TextEncoder().encode(_)`) -/

/-- UTF-8 bytes of one code point. -/
def utf8Char (c : Char) : List Nat :=
  let n := c.toNat
  if n < 128 then [n]
  else if n < 2048 then [192 ||| (n >>> 6), 128 ||| (n &&& 63)]
  else if n < 65536 then
    [224 ||| (n >>> 12), 128 ||| ((n >>> 6) &&& 63), 128 ||| (n &&& 63)]
  else
    [240 ||| (n >>> 18), 128 ||| ((n >>> 12) &&& 63), 128 ||| ((n >>> 6) &&& 63), 128 ||| (n &&& 63)]

/-- UTF-8 bytes of a string, as `TextEncoder.encode` produces them. -/
def utf8Encode (s : String) : List Nat := (s.data.map utf8Char).flatten

/- ## HMAC-SHA256 and HKDF-SHA256 (the model of WebCrypto `deriveBits` with HKDF) -/

/-- HMAC-SHA256 with a 64-byte block size (RFC 2104). -/
def hmacSha256 (key msg : List Nat) : List Nat :=
  let k0 := if 64 < key.length then sha256 key else key
  let kPad := k0 ++ List.replicate (64 - k0.length) 0
  sha256 ((kPad.map (fun b => b ^^^ 92)) ++ sha256 ((kPad.map (fun b => b ^^^ 54)) ++ msg))

/-- HKDF-Extract (RFC 5869): PRK = HMAC(salt, IKM). -/
def hkdfExtract (salt ikm : List Nat) : List Nat := hmacSha256 salt ikm

/-- The successive HKDF-Expand blocks T(i) = HMAC(PRK, T(i-1) || info || [i]),
starting from the previous block and counter given. -/
def hkdfBlocks (prk info tPrev : List Nat) (i : Nat) : Nat → List (List Nat)
  | 0 => []
  | n + 1 =>
      let t := hmacSha256 prk (tPrev ++ info ++ [i])
      t :: hkdfBlocks prk info t (i + 1) n

/-- HKDF-Expand (RFC 5869) to `len` bytes. -/
def hkdfExpand (prk info : List Nat) (len : Nat) : List Nat :=
  ((hkdfBlocks prk info [] 1 ((len + 31) / 32)).flatten).take len

/-- HKDF-SHA256 extract-and-expand, as WebCrypto `deriveBits` performs for an
HKDF key: key material, salt, info, output byte count. -/
def hkdfSha256 (ikm salt info : List Nat) (len : Nat) : List Nat :=
  hkdfExpand (hkdfExtract salt ikm) info len

/- ## ChallengeBuilder and service-label canonicalization -/

/-- Split a character list at every dot, keeping empty segments, exactly as the
JS `String.prototype.split` with separator "." does (so the empty string yields
one empty segment). -/
def splitDot : List Char → List (List Char)
  | [] => [[]]
  | c :: rest =>
      if c = '.' then [] :: splitDot rest
      else
        match splitDot rest with
        | [] => [[c]]
        | g :: gs => (c :: g) :: gs

/-- The segments of `fullServiceName.split(".")` as strings. -/
def splitDotStr (s : String) : List String := (splitDot s.data).map String.mk

/-- Service-name canonicalization from `generatePasswordFromEntropy`
(stores/passwords.ts lines 356 to 357): `parts.length > 1 ?
parts[parts.length - 2] : fullServiceName`. -/
def extractServiceName (s : String) : String :=
  let parts := splitDotStr s
  if 1 < parts.length then parts.getD (parts.length - 2) "" else s

/-- The deterministic WebAuthn challenge of `crypto.service.ts`
(`generateDeterministicChallenge`, lines 25 to 30): the SHA-256 digest of the
UTF-8 bytes of the input string. -/
def generateDeterministicChallenge (inputString : String) : List Nat :=
  sha256 (utf8Encode inputString)

/- ## AssertionNormalizer -/

/-- Assertion normalization from `crypto.service.ts`
(`getDeterministicAuthenticatorData`, lines 38 to 48): copy the buffer
(`new Uint8Array(authenticatorData)` copies) and write zero at indices 21, 22,
23 and 24. A JS typed-array write at an out-of-range index is a silent no-op,
which is exactly the behaviour of `List.set` past the end of the list. -/
def getDeterministicAuthenticatorData (authenticatorData : List Nat) : List Nat :=
  ((((authenticatorData.set 21 0).set 22 0).set 23 0).set 24 0)

/-- The same normalization viewed as a fallible call: the function body contains
no throwing operation (typed-array out-of-range writes do not throw), so every
input, of any length, produces a normally returned buffer. -/
def getDeterministicAuthenticatorDataRun (authenticatorData : List Nat) :
    Except String (List Nat) :=
  Except.ok (getDeterministicAuthenticatorData authenticatorData)

/- ## SeedDeriver -/

/-- Master-seed derivation from `crypto.service.ts` (`deriveMasterSeed`, lines
57 to 85): HKDF-SHA256 with the authenticator data as key material, the UTF-8
bytes of the domain string as salt, the fixed info string
"encryptio-codename-generation", and 512 derived bits (64 bytes). -/
def deriveMasterSeed (authenticatorData : List Nat) (domainString : String) : List Nat :=
  hkdfSha256 authenticatorData (utf8Encode domainString)
    (utf8Encode "encryptio-codename-generation") 64

/-- Modelled from the spec (for comparison only): the seed derivation the spec
describes, whose salt is the canonical service label and whose info string is
the fixed constant with the version appended as decimal ASCII. -/
def specVersionedSeedDerive (assertion : List Nat) (label : String) (version : Nat) : List Nat :=
  hkdfSha256 assertion (utf8Encode label)
    (utf8Encode ("encryptio-codename-generation" ++ "v" ++ toString version)) 64

/- ## OutputFormatter: PasswordStretcher (stores/passwords.ts lines 350 to 397) -/

/-- The fixed password alphabet literal of `generatePasswordFromEntropy`
(braces written as hex escapes). -/
def allowedChars : String :=
  "ABCDEFGHIJKLMNOPQRSTUVWXYZabcdefghijklmnopqrstuvwxyz0123456789!@#$%^&*()_+=-[]\x7b\x7d|;:,.<>?"

/-- The alphabet as a character list. -/
def allowedCharsList : List Char := allowedChars.data

/-- One output character: `allowedChars[byte % allowedChars.length]`. -/
def charFromByte (b : Nat) : Char :=
  allowedCharsList.getD (b % allowedCharsList.length) 'A'

/-- JS `target.set(source)` at offset 0 on typed arrays: overwrite the first
`source.length` entries of `target` (in the program both operands are 32-byte
digests, so this is exactly `source`). -/
def uint8ArraySet (target source : List Nat) : List Nat :=
  source.take target.length ++ target.drop source.length

/-- The seed data of `generatePasswordFromEntropy`: entropy bytes, then the
UTF-8 bytes of the extracted service name, then of "v" plus the version. -/
def seedDataOf (entropy : List Nat) (fullServiceName : String) (version : Nat) : List Nat :=
  entropy ++ utf8Encode (extractServiceName fullServiceName) ++
    utf8Encode ("v" ++ toString version)

/-- The character-production loop of `generatePasswordFromEntropy` (lines 377
to 394), one constructor per loop iteration: if all hash bytes are consumed,
re-hash `seedData ++ [hashIndex / mainHash.length]`, overwrite `mainHash` with
the new digest, reset the index, and continue; otherwise emit
`allowedChars[mainHash[hashIndex] % allowedChars.length]` and advance. -/
def stretchLoop (seedData : List Nat) : List Nat → Nat → Nat → List Char
  | _, _, 0 => []
  | mainHash, hashIndex, n + 1 =>
      if mainHash.length ≤ hashIndex then
        let refreshed := uint8ArraySet mainHash (sha256 (seedData ++ [hashIndex / mainHash.length]))
        charFromByte (refreshed.getD 0 0) :: stretchLoop seedData refreshed 1 n
      else
        charFromByte (mainHash.getD hashIndex 0) :: stretchLoop seedData mainHash (hashIndex + 1) n

/-- The full `generatePasswordFromEntropy` (stores/passwords.ts lines 350 to
397): extract the service name, build the seed data, hash it, and run the
20-iteration character loop. -/
def generatePasswordFromEntropy (entropy : List Nat) (fullServiceName : String)
    (version : Nat) : String :=
  let seedData := seedDataOf entropy fullServiceName version
  String.mk (stretchLoop seedData (sha256 seedData) 0 20)

/-- Modelled from the spec claim wording (for the refinement comparison): map
each of the first 20 bytes of SHA-256(entropy || canonical-label bytes ||
"v"+version bytes) through byte mod alphabet length to an alphabet character. -/
def specSimpleStretch (entropy : List Nat) (fullServiceName : String) (version : Nat) : String :=
  String.mk (((sha256 (seedDataOf entropy fullServiceName version)).take 20).map charFromByte)

/- ## OutputFormatter: CodenameSelector (crypto.service.ts lines 92 to 153) -/

/-- One dictionary entry of the codename dictionary collaborator. -/
structure ChineseCharEntry where
  char : String
  pinyin : String
  tone : Nat

/-- Character selection from `selectCharacter`: read the 4-byte segment as a
big-endian 32-bit integer (`DataView.getUint32(0, false)`) and index the
dictionary at `value % dictionary.length`. -/
def selectCharacter (dict : List ChineseCharEntry) (seedSegment : List Nat) : ChineseCharEntry :=
  let value := seedSegment.getD 0 0 * 16777216 + seedSegment.getD 1 0 * 65536 +
               seedSegment.getD 2 0 * 256 + seedSegment.getD 3 0
  dict.getD (value % dict.length) ⟨"", "", 0⟩

/-- The codename string of `generateCodename` step 5 and 6: the characters
selected from seed bytes 0-3, 4-7 and 8-11, concatenated. -/
def codenameOf (dict : List ChineseCharEntry) (seed : List Nat) : String :=
  let c1 := selectCharacter dict (seed.take 4)
  let c2 := selectCharacter dict ((seed.drop 4).take 4)
  let c3 := selectCharacter dict ((seed.drop 8).take 4)
  c1.char ++ c2.char ++ c3.char

/- ## GenerationCoordinator state (stores/passwords.ts lines 278 to 348, 410 to 420) -/

/-- One stored entry of the Pinia password store, with the fields of the
`GeneratedPassword` interface (the `generated` date as a timestamp). -/
structure GeneratedPassword where
  service : String
  password : String
  version : Nat
  generated : Nat
  credentialId : String

/-- The deduplication key used by the store: the (service, version) pair. -/
def entryKey (e : GeneratedPassword) : String × Nat := (e.service, e.version)

/-- JS `Array.prototype.findIndex`, with the -1 result modelled as `none`. -/
def jsFindIndex {α : Type} (p : α → Bool) : List α → Option Nat
  | [] => none
  | a :: as => if p a then some 0 else (jsFindIndex p as).map (· + 1)

/-- The list update of a successful `generatePassword` (lines 323 to 336):
replace the entry with the same service and version if one exists, otherwise
unshift the new entry; then truncate to the first 100 entries when the list
exceeds 100. -/
def storeInsert (e : GeneratedPassword) (l : List GeneratedPassword) : List GeneratedPassword :=
  let l1 :=
    match jsFindIndex (fun p => p.service == e.service && p.version == e.version) l with
    | some i => l.set i e
    | none => e :: l
  if 100 < l1.length then l1.take 100 else l1

/-- The observable store operations of the claim: a successful generate call, a
failed generate call (which leaves the list unchanged), `removePassword`, and
`clearPasswords`. -/
inductive StoreOp
  | generate (service : String) (version : Nat) (password : String)
      (generated : Nat) (credentialId : String)
  | generateFailed
  | remove (service : String) (version : Nat)
  | clear

/-- Apply one operation to the stored password list. -/
def applyOp (l : List GeneratedPassword) : StoreOp → List GeneratedPassword
  | StoreOp.generate s v pw g cid => storeInsert ⟨s, pw, v, g, cid⟩ l
  | StoreOp.generateFailed => l
  | StoreOp.remove s v => l.filter (fun p => !(p.service == s && p.version == v))
  | StoreOp.clear => []

/-- Run a sequence of store operations from the initial empty list. -/
def runOps (ops : List StoreOp) : List GeneratedPassword := ops.foldl applyOp []

/-- The store invariant: at most 100 entries and no duplicate (service, version) key. -/
def StoreInv (l : List GeneratedPassword) : Prop :=
  l.length ≤ 100 ∧ (l.map entryKey).Nodup

/- ## Concurrency model of generatePassword (stores/passwords.ts lines 291 to 348)

The body of `generatePassword` runs on the JS event loop: the segment from
entry up to the `await webAuthnStore.getEntropy(...)` call executes atomically,
and the segment after the entropy promise resolves (formatting, list update,
`finally` clearing `isGenerating`) executes atomically.  The only shared state
the function consults before starting an authenticator interaction is
`hasCredentials`; it never consults `isGenerating`. -/

/-- The phase of one pending `generatePassword` invocation. -/
inductive TaskPhase
  | idle
  | waitingAuth
  | done
deriving DecidableEq

/-- Shared state for two pending `generatePassword` invocations: whether
credentials are registered, the `isGenerating` flag, and each invocation phase.
An invocation in phase `waitingAuth` has an authenticator interaction in
flight. -/
structure CoordState where
  creds : Bool
  isGenerating : Bool
  task1 : TaskPhase
  task2 : TaskPhase
deriving DecidableEq

/-- The atomic steps of the two invocations, as the code permits them: a start
step requires only registered credentials and the invocation not yet started
(there is no check of `isGenerating` in the source), sets `isGenerating` and
begins the authenticator interaction; a finish step completes the interaction
and clears `isGenerating` in the `finally` block. -/
inductive CoordStep : CoordState → CoordState → Prop
  | start1 (s : CoordState) (hc : s.creds = true) (h : s.task1 = TaskPhase.idle) :
      CoordStep s { s with isGenerating := true, task1 := TaskPhase.waitingAuth }
  | start2 (s : CoordState) (hc : s.creds = true) (h : s.task2 = TaskPhase.idle) :
      CoordStep s { s with isGenerating := true, task2 := TaskPhase.waitingAuth }
  | finish1 (s : CoordState) (h : s.task1 = TaskPhase.waitingAuth) :
      CoordStep s { s with isGenerating := false, task1 := TaskPhase.done }
  | finish2 (s : CoordState) (h : s.task2 = TaskPhase.waitingAuth) :
      CoordStep s { s with isGenerating := false, task2 := TaskPhase.done }

/-- Initial state: credentials registered, nothing running. -/
def coordInit : CoordState :=
  { creds := true, isGenerating := false, task1 := TaskPhase.idle, task2 := TaskPhase.idle }

/- ## The generation pipeline as a run relation (for the determinism claim) -/

/-- The two output-formatting strategies of the repository. -/
inductive FormatStrategy
  | passwordStretcher
  | codenameSelector

/-- A run of the character-production loop, one constructor per loop iteration,
mirroring `stretchLoop` branch for branch. -/
inductive StretchRun (seedData : List Nat) : List Nat → Nat → Nat → List Char → Prop
  | done (mainHash : List Nat) (hashIndex : Nat) :
      StretchRun seedData mainHash hashIndex 0 []
  | refill (mainHash : List Nat) (hashIndex n : Nat) (rest : List Char)
      (hge : mainHash.length ≤ hashIndex)
      (hrec : StretchRun seedData
        (uint8ArraySet mainHash (sha256 (seedData ++ [hashIndex / mainHash.length]))) 1 n rest) :
      StretchRun seedData mainHash hashIndex (n + 1)
        (charFromByte ((uint8ArraySet mainHash
          (sha256 (seedData ++ [hashIndex / mainHash.length]))).getD 0 0) :: rest)
  | step (mainHash : List Nat) (hashIndex n : Nat) (rest : List Char)
      (hlt : hashIndex < mainHash.length)
      (hrec : StretchRun seedData mainHash (hashIndex + 1) n rest) :
      StretchRun seedData mainHash hashIndex (n + 1)
        (charFromByte (mainHash.getD hashIndex 0) :: rest)

/-- A run of the generation pipeline (seed derivation followed by output
formatting) on fixed normalized assertion or entropy bytes, service input,
version and strategy: the password strategy hashes the seed data and runs the
20-iteration loop; the codename strategy derives the HKDF master seed and
formats three dictionary entries. -/
inductive GenRun (dict : List ChineseCharEntry) :
    List Nat → String → Nat → FormatStrategy → String → Prop
  | password (entropy : List Nat) (svc : String) (version : Nat)
      (mainHash : List Nat) (chars : List Char)
      (hh : mainHash = sha256 (seedDataOf entropy svc version))
      (hs : StretchRun (seedDataOf entropy svc version) mainHash 0 20 chars) :
      GenRun dict entropy svc version FormatStrategy.passwordStretcher (String.mk chars)
  | codename (authData : List Nat) (domain : String) (version : Nat) (seed : List Nat)
      (hd : seed = deriveMasterSeed authData domain) :
      GenRun dict authData domain version FormatStrategy.codenameSelector (codenameOf dict seed)

/- ## Helper lemmas -/

/-- A SHA-256 digest always has exactly 32 bytes. -/
theorem sha256_length (msg : List Nat) : (sha256 msg).length = 32 := rfl

/-- An HMAC-SHA256 tag always has exactly 32 bytes. -/
theorem hmacSha256_length (key msg : List Nat) : (hmacSha256 key msg).length = 32 :=
  sha256_length _

/-- Every HKDF expansion block has 32 bytes. -/
theorem hkdfBlocks_mem_length (prk info : List Nat) :
    ∀ (n : Nat) (tPrev : List Nat) (i : Nat) (b : List Nat),
      b ∈ hkdfBlocks prk info tPrev i n → b.length = 32 := by
  intro n
  induction n with
  | zero => intro tPrev i b hb; simp [hkdfBlocks] at hb
  | succ n ih =>
      intro tPrev i b hb
      simp only [hkdfBlocks, List.mem_cons] at hb
      rcases hb with hb | hb
      · rw [hb]; exact hmacSha256_length _ _
      · exact ih _ _ _ hb

/-- The number of HKDF expansion blocks produced. -/
theorem hkdfBlocks_count (prk info : List Nat) :
    ∀ (n : Nat) (tPrev : List Nat) (i : Nat), (hkdfBlocks prk info tPrev i n).length = n := by
  intro n
  induction n with
  | zero => intro tPrev i; rfl
  | succ n ih => intro tPrev i; simp [hkdfBlocks, ih]

/-- Flattening a list of 32-byte blocks yields 32 bytes per block. -/
theorem flatten_uniform_length :
    ∀ (L : List (List Nat)), (∀ b ∈ L, b.length = 32) → L.flatten.length = 32 * L.length := by
  intro L
  induction L with
  | nil => intro _; rfl
  | cons b rest ih =>
      intro h
      simp only [List.flatten_cons, List.length_append, List.length_cons]
      rw [h b (by simp), ih (fun x hx => h x (by simp [hx]))]
      ring

/-- A 64-byte HKDF expansion has exactly 64 bytes. -/
theorem hkdfExpand64_length (prk info : List Nat) : (hkdfExpand prk info 64).length = 64 := by
  have hflat : (hkdfBlocks prk info [] 1 ((64 + 31) / 32)).flatten.length = 64 := by
    rw [flatten_uniform_length _ (fun b hb => hkdfBlocks_mem_length prk info _ _ _ _ hb),
        hkdfBlocks_count]
  simp only [hkdfExpand, List.length_take, hflat]
  omega

/-- Setting an index past the end of a list is the identity (the model of a JS
typed-array write at an out-of-range index). -/
theorem set_past_length {α : Type} :
    ∀ (l : List α) (i : Nat) (v : α), l.length ≤ i → l.set i v = l := by
  intro l
  induction l with
  | nil => intro i v _; cases i <;> rfl
  | cons a as ih =>
      intro i v h
      cases i with
      | zero => simp at h
      | succ j => simpa using ih j v (by simpa using h)

/-- Reading back a written index inside the list. -/
theorem getD_set_same {α : Type} (l : List α) (i : Nat) (v d : α) (h : i < l.length) :
    (l.set i v).getD i d = v := by
  simp [List.getD_eq_getElem?_getD, List.getElem?_set_self, h]

/-- Reading an index other than the one written. -/
theorem getD_set_other {α : Type} (l : List α) (i j : Nat) (v d : α) (h : i ≠ j) :
    (l.set i v).getD j d = l.getD j d := by
  simp [List.getD_eq_getElem?_getD, List.getElem?_set_ne h]

/-- Writing an element back at its own position changes nothing. -/
theorem set_getElem_self {α : Type} :
    ∀ (l : List α) (i : Nat) (h : i < l.length), l.set i l[i] = l := by
  intro l
  induction l with
  | nil => intro i h; simp at h
  | cons a as ih =>
      intro i h
      cases i with
      | zero => rfl
      | succ j => simpa using ih j (by simpa using h)

/-- The alphabet has 88 characters. -/
theorem allowedCharsList_length : allowedCharsList.length = 88 := by decide

/-- Every character the stretcher emits is an alphabet member. -/
theorem charFromByte_mem (b : Nat) : charFromByte b ∈ allowedCharsList := by
  have hlt : b % allowedCharsList.length < allowedCharsList.length :=
    Nat.mod_lt _ (by rw [allowedCharsList_length]; omega)
  rw [charFromByte, List.getD_eq_getElem _ _ hlt]
  exact List.getElem_mem hlt

/-- As long as enough hash bytes remain, the character loop is exactly a map
over the unconsumed bytes: the refill branch is never taken. -/
theorem stretchLoop_eq_map (seed : List Nat) :
    ∀ (n : Nat) (h : List Nat) (idx : Nat), idx + n ≤ h.length →
      stretchLoop seed h idx n = ((h.drop idx).take n).map charFromByte := by
  intro n
  induction n with
  | zero => intro h idx _; simp [stretchLoop]
  | succ n ih =>
      intro h idx hle
      have hlt : idx < h.length := by omega
      have hdrop : h.drop idx = h[idx] :: h.drop (idx + 1) := List.drop_eq_getElem_cons hlt
      rw [stretchLoop, if_neg (by omega), hdrop]
      simp only [List.take_succ_cons, List.map_cons]
      rw [ih h (idx + 1) (by omega), List.getD_eq_getElem _ _ hlt]

/-- The full password stretcher equals the simple map over the first 20 digest
bytes, because a single SHA-256 digest already supplies 32 of them. -/
theorem password_eq_simple (entropy : List Nat) (svc : String) (version : Nat) :
    generatePasswordFromEntropy entropy svc version = specSimpleStretch entropy svc version := by
  show String.mk (stretchLoop (seedDataOf entropy svc version)
      (sha256 (seedDataOf entropy svc version)) 0 20) =
    String.mk (((sha256 (seedDataOf entropy svc version)).take 20).map charFromByte)
  rw [stretchLoop_eq_map _ 20 _ 0 (by rw [sha256_length]; omega), List.drop_zero]

/-- The character loop relation is total: it derives the value the loop
computes. -/
theorem stretchRun_total (seed : List Nat) :
    ∀ (n : Nat) (h : List Nat) (idx : Nat),
      StretchRun seed h idx n (stretchLoop seed h idx n) := by
  intro n
  induction n with
  | zero => intro h idx; exact StretchRun.done h idx
  | succ n ih =>
      intro h idx
      by_cases hc : h.length ≤ idx
      · rw [stretchLoop, if_pos hc]
        exact StretchRun.refill h idx n _ hc (ih _ _)
      · rw [stretchLoop, if_neg hc]
        exact StretchRun.step h idx n _ (by omega) (ih _ _)

/-- The character loop relation is deterministic. -/
theorem stretchRun_det {seed h : List Nat} {idx n : Nat} {o1 o2 : List Char}
    (r1 : StretchRun seed h idx n o1) (r2 : StretchRun seed h idx n o2) : o1 = o2 := by
  induction r1 generalizing o2 with
  | done mh hi => cases r2; rfl
  | refill mh hi n rest hge hrec ih =>
      cases r2 with
      | refill _ _ _ rest2 hge2 hrec2 => rw [ih hrec2]
      | step _ _ _ rest2 hlt2 hrec2 => omega
  | step mh hi n rest hlt hrec ih =>
      cases r2 with
      | refill _ _ _ rest2 hge2 hrec2 => omega
      | step _ _ _ rest2 hlt2 hrec2 => rw [ih hrec2]

/-- When `findIndex` reports no match, no element satisfies the predicate. -/
theorem jsFindIndex_none_forall {α : Type} (p : α → Bool) :
    ∀ (l : List α), jsFindIndex p l = none → ∀ a ∈ l, p a = false := by
  intro l
  induction l with
  | nil => intro _ a ha; simp at ha
  | cons a as ih =>
      intro h b hb
      by_cases hp : p a
      · simp [jsFindIndex, hp] at h
      · rcases List.mem_cons.mp hb with hb | hb
        · subst hb; simpa using hp
        · refine ih ?_ b hb
          simpa [jsFindIndex, hp] using h

/-- When `findIndex` reports a match, the index is in range and the element
there satisfies the predicate. -/
theorem jsFindIndex_some_spec {α : Type} (p : α → Bool) :
    ∀ (l : List α) (i : Nat), jsFindIndex p l = some i →
      i < l.length ∧ ∀ (d : α), p (l.getD i d) = true := by
  intro l
  induction l with
  | nil => intro i h; simp [jsFindIndex] at h
  | cons a as ih =>
      intro i h
      by_cases hp : p a
      · simp [jsFindIndex, hp] at h
        subst h
        exact ⟨by simp, fun d => by simpa using hp⟩
      · simp [jsFindIndex, hp] at h
        obtain ⟨j, hj, hji⟩ := h
        obtain ⟨hlt, hsat⟩ := ih j hj
        subst hji
        exact ⟨by simpa using Nat.succ_lt_succ hlt, fun d => by simpa using hsat d⟩

/-- When some element satisfies the predicate, `findIndex` reports a match. -/
theorem jsFindIndex_isSome_of_exists {α : Type} (p : α → Bool) :
    ∀ (l : List α), (∃ a ∈ l, p a = true) → ∃ i, jsFindIndex p l = some i := by
  intro l
  induction l with
  | nil => intro ⟨a, ha, _⟩; simp at ha
  | cons a as ih =>
      intro ⟨b, hb, hpb⟩
      by_cases hp : p a
      · exact ⟨0, by simp [jsFindIndex, hp]⟩
      · rcases List.mem_cons.mp hb with hb | hb
        · subst hb; exact absurd hpb (by simpa using hp)
        · obtain ⟨j, hj⟩ := ih ⟨b, hb, hpb⟩
          exact ⟨j + 1, by simp [jsFindIndex, hp, hj]⟩

/-- The replace-or-unshift-then-truncate update preserves the store invariant. -/
theorem storeInsert_inv (e : GeneratedPassword) (l : List GeneratedPassword)
    (h : StoreInv l) : StoreInv (storeInsert e l) := by
  obtain ⟨hlen, hnd⟩ := h
  cases hfi : jsFindIndex (fun p => p.service == e.service && p.version == e.version) l with
  | some i =>
      have hins : storeInsert e l =
          if 100 < (l.set i e).length then (l.set i e).take 100 else l.set i e := by
        unfold storeInsert
        rw [hfi]
      rw [hins]
      obtain ⟨hilt, hsat⟩ := jsFindIndex_some_spec _ l i hfi
      have hkey : entryKey l[i] = entryKey e := by
        have hp := hsat e
        rw [List.getD_eq_getElem _ _ hilt] at hp
        simp only [Bool.and_eq_true, beq_iff_eq] at hp
        simp [entryKey, hp.1, hp.2]
      have hnd1 : ((l.set i e).map entryKey).Nodup := by
        rw [List.map_set]
        have hilt2 : i < (l.map entryKey).length := by simpa using hilt
        have hself : (l.map entryKey)[i] = entryKey e := by
          rw [List.getElem_map]; exact hkey
        rw [← hself, set_getElem_self]
        exact hnd
      simp only [List.length_set]
      rw [if_neg (by omega)]
      exact ⟨by simpa using hlen, hnd1⟩
  | none =>
      have hins : storeInsert e l =
          if 100 < (e :: l).length then (e :: l).take 100 else e :: l := by
        unfold storeInsert
        rw [hfi]
      rw [hins]
      have hall := jsFindIndex_none_forall _ l hfi
      have hnotin : entryKey e ∉ l.map entryKey := by
        intro hmem
        obtain ⟨x, hx, hke⟩ := List.mem_map.mp hmem
        have hfalse := hall x hx
        simp only [entryKey, Prod.mk.injEq] at hke
        rw [hke.1, hke.2] at hfalse
        simp at hfalse
      have hnd1 : ((e :: l).map entryKey).Nodup := by
        simp only [List.map_cons, List.nodup_cons]
        exact ⟨hnotin, hnd⟩
      by_cases hbig : 100 < (e :: l).length
      · rw [if_pos hbig]
        constructor
        · simp [List.length_take]
        · rw [List.map_take]
          exact hnd1.sublist (List.take_sublist _ _)
      · rw [if_neg hbig]
        simp only [List.length_cons] at hbig
        refine ⟨?_, hnd1⟩
        simp only [List.length_cons]
        omega

/-- Every store operation preserves the invariant. -/
theorem applyOp_inv (l : List GeneratedPassword) (op : StoreOp) (h : StoreInv l) :
    StoreInv (applyOp l op) := by
  cases op with
  | generate s v pw g cid => exact storeInsert_inv _ l h
  | generateFailed => exact h
  | remove s v =>
      obtain ⟨hlen, hnd⟩ := h
      constructor
      · exact le_trans (List.length_filter_le _ l) hlen
      · exact hnd.sublist ((List.filter_sublist l).map entryKey)
  | clear => exact ⟨by simp [applyOp], by simp [applyOp]⟩

/-- Folding store operations from an invariant state keeps the invariant. -/
theorem foldl_applyOp_inv :
    ∀ (ops : List StoreOp) (l : List GeneratedPassword),
      StoreInv l → StoreInv (ops.foldl applyOp l) := by
  intro ops
  induction ops with
  | nil => intro l h; exact h
  | cons op rest ih => intro l h; exact ih _ (applyOp_inv l op h)

/-- When the key of the new entry is already stored and the list is within the
bound, the generate update replaces in place and keeps the length. -/
theorem storeInsert_length_of_mem (e : GeneratedPassword) (l : List GeneratedPassword)
    (hmem : entryKey e ∈ l.map entryKey) (hlen : l.length ≤ 100) :
    (storeInsert e l).length = l.length := by
  obtain ⟨x, hx, hkx⟩ := List.mem_map.mp hmem
  have hpx : (fun p => p.service == e.service && p.version == e.version) x = true := by
    simp only [entryKey, Prod.mk.injEq] at hkx
    simp [hkx.1, hkx.2]
  obtain ⟨i, hi⟩ := jsFindIndex_isSome_of_exists
    (fun p => p.service == e.service && p.version == e.version) l ⟨x, hx, hpx⟩
  have hins : storeInsert e l =
      if 100 < (l.set i e).length then (l.set i e).take 100 else l.set i e := by
    unfold storeInsert
    rw [hi]
  rw [hins, if_neg (by rw [List.length_set]; omega), List.length_set]

/-- Bytes outside the counter field pass through normalization unchanged. -/
theorem normAuth_getD_unchanged (data : List Nat) (i : Nat) (hr : i < 21 ∨ 24 < i) :
    (getDeterministicAuthenticatorData data).getD i 0 = data.getD i 0 := by
  unfold getDeterministicAuthenticatorData
  rw [getD_set_other _ 24 i _ _ (by omega), getD_set_other _ 23 i _ _ (by omega),
      getD_set_other _ 22 i _ _ (by omega), getD_set_other _ 21 i _ _ (by omega)]

/-- In-range counter bytes are zero after normalization. -/
theorem normAuth_getD_zero (data : List Nat) (i d : Nat) (h1 : 21 ≤ i) (h2 : i ≤ 24)
    (hlen : i < data.length) : (getDeterministicAuthenticatorData data).getD i d = 0 := by
  unfold getDeterministicAuthenticatorData
  interval_cases i
  · rw [getD_set_other _ 24 21 _ _ (by omega), getD_set_other _ 23 21 _ _ (by omega),
        getD_set_other _ 22 21 _ _ (by omega), getD_set_same _ 21 _ _ hlen]
  · rw [getD_set_other _ 24 22 _ _ (by omega), getD_set_other _ 23 22 _ _ (by omega),
        getD_set_same _ 22 _ _ (by simpa [List.length_set] using hlen)]
  · rw [getD_set_other _ 24 23 _ _ (by omega),
        getD_set_same _ 23 _ _ (by simpa [List.length_set] using hlen)]
  · rw [getD_set_same _ 24 _ _ (by simpa [List.length_set] using hlen)]

/- ## Claim theorems -/

/-- C1: for a fixed tuple of normalized assertion or entropy bytes, service
input, version and formatting strategy, any two runs of the generation
pipeline (seed derivation followed by output formatting) produce identical
output strings: the pipeline is a deterministic function of these inputs, with
no randomness. -/
theorem c1_generation_deterministic (dict : List ChineseCharEntry) (input : List Nat)
    (svc : String) (version : Nat) (strat : FormatStrategy) (out1 out2 : String)
    (h1 : GenRun dict input svc version strat out1)
    (h2 : GenRun dict input svc version strat out2) : out1 = out2 := by
  cases h1 with
  | password mh1 ch1 hh1 hs1 =>
      cases h2 with
      | password mh2 ch2 hh2 hs2 =>
          subst hh1
          subst hh2
          rw [stretchRun_det hs1 hs2]
  | codename seed1 hd1 =>
      cases h2 with
      | codename seed2 hd2 =>
          subst hd1
          subst hd2
          rfl

/-- C1 witness: a concrete pipeline run on fixed inputs, and determinism
applied to that run. -/
theorem c1_witness :
    GenRun [] [1, 2, 3] "accounts.example.com" 7 FormatStrategy.passwordStretcher
      (generatePasswordFromEntropy [1, 2, 3] "accounts.example.com" 7) ∧
    generatePasswordFromEntropy [1, 2, 3] "accounts.example.com" 7 =
      generatePasswordFromEntropy [1, 2, 3] "accounts.example.com" 7 := by
  have hrun : GenRun [] [1, 2, 3] "accounts.example.com" 7 FormatStrategy.passwordStretcher
      (generatePasswordFromEntropy [1, 2, 3] "accounts.example.com" 7) := by
    show GenRun [] [1, 2, 3] "accounts.example.com" 7 FormatStrategy.passwordStretcher
      (String.mk (stretchLoop (seedDataOf [1, 2, 3] "accounts.example.com" 7)
        (sha256 (seedDataOf [1, 2, 3] "accounts.example.com" 7)) 0 20))
    exact GenRun.password _ _ _ _ _ rfl (stretchRun_total _ 20 _ 0)
  exact ⟨hrun, c1_generation_deterministic [] [1, 2, 3] "accounts.example.com" 7
    FormatStrategy.passwordStretcher _ _ hrun hrun⟩

/-- C2: for every assertion of at least 25 bytes, normalization preserves the
length, zeroes exactly the four counter bytes at offsets 21 to 24, passes
every other byte through unchanged, and consequently identifies any two
assertions that differ only in the counter bytes; the input itself is never
mutated, since the function operates on a copy. -/
theorem c2_counter_neutralization (data : List Nat) (hlen : 25 ≤ data.length) :
    (getDeterministicAuthenticatorData data).length = data.length ∧
    ((getDeterministicAuthenticatorData data).getD 21 1 = 0 ∧
     (getDeterministicAuthenticatorData data).getD 22 1 = 0 ∧
     (getDeterministicAuthenticatorData data).getD 23 1 = 0 ∧
     (getDeterministicAuthenticatorData data).getD 24 1 = 0) ∧
    (∀ i, i < data.length → i < 21 ∨ 24 < i →
      (getDeterministicAuthenticatorData data).getD i 0 = data.getD i 0) ∧
    (∀ b : List Nat, b.length = data.length →
      (∀ i, i < data.length → i < 21 ∨ 24 < i → b.getD i 0 = data.getD i 0) →
      getDeterministicAuthenticatorData b = getDeterministicAuthenticatorData data) := by
  refine ⟨by simp [getDeterministicAuthenticatorData, List.length_set],
    ⟨normAuth_getD_zero data 21 1 (by omega) (by omega) (by omega),
     normAuth_getD_zero data 22 1 (by omega) (by omega) (by omega),
     normAuth_getD_zero data 23 1 (by omega) (by omega) (by omega),
     normAuth_getD_zero data 24 1 (by omega) (by omega) (by omega)⟩,
    fun i _ hr => normAuth_getD_unchanged data i hr, ?_⟩
  intro b hblen hsame
  have hlnorm : ∀ x : List Nat, (getDeterministicAuthenticatorData x).length = x.length := by
    intro x
    simp [getDeterministicAuthenticatorData, List.length_set]
  apply List.ext_getElem (by rw [hlnorm, hlnorm, hblen])
  intro i hib hid
  rw [← List.getD_eq_getElem _ 0 hib, ← List.getD_eq_getElem _ 0 hid]
  have hib2 : i < b.length := by rw [hlnorm] at hib; exact hib
  have hid2 : i < data.length := by rw [hlnorm] at hid; exact hid
  by_cases hc : i < 21 ∨ 24 < i
  · rw [normAuth_getD_unchanged b i hc, normAuth_getD_unchanged data i hc]
    exact hsame i hid2 hc
  · have h1 : 21 ≤ i := by omega
    have h2 : i ≤ 24 := by omega
    rw [normAuth_getD_zero b i 0 h1 h2 hib2, normAuth_getD_zero data i 0 h1 h2 hid2]

/-- C2 witness: a concrete 25-byte assertion and a variant differing only at
counter offset 22 normalize to identical buffers. -/
theorem c2_witness :
    25 ≤ (List.replicate 25 7).length ∧
    ((List.replicate 25 7).set 22 9).length = (List.replicate 25 7).length ∧
    (∀ i, i < (List.replicate 25 7).length → i < 21 ∨ 24 < i →
      ((List.replicate 25 7).set 22 9).getD i 0 = (List.replicate 25 7).getD i 0) ∧
    getDeterministicAuthenticatorData ((List.replicate 25 7).set 22 9) =
      getDeterministicAuthenticatorData (List.replicate 25 7) := by
  refine ⟨by decide, by decide, by decide, ?_⟩
  exact (c2_counter_neutralization (List.replicate 25 7) (by decide)).2.2.2
    ((List.replicate 25 7).set 22 9) (by decide) (by decide)

/-- C3 counterexample: on a 10-byte input, shorter than the minimum structure
size of offset+4 = 25 bytes, normalization does not fail: the call returns a
normally produced buffer (here the input unchanged, since all four counter
writes land out of range), so no MalformedAssertion error is raised. -/
theorem c3_counterexample :
    getDeterministicAuthenticatorDataRun (List.replicate 10 7) =
      Except.ok (List.replicate 10 7) ∧
    (List.replicate 10 7).length < 25 := by
  refine ⟨?_, by decide⟩
  rfl

/-- C3 corrected: normalization validates nothing and never fails; every input
yields a normally returned buffer of the same length, and inputs shorter than
22 bytes (so that even offset 21 is out of range) come back entirely
unchanged, because each counter write is a silent out-of-range no-op. -/
theorem c3_no_length_validation (data : List Nat) :
    getDeterministicAuthenticatorDataRun data =
      Except.ok (getDeterministicAuthenticatorData data) ∧
    (getDeterministicAuthenticatorData data).length = data.length ∧
    (data.length ≤ 21 → getDeterministicAuthenticatorData data = data) := by
  refine ⟨rfl, by simp [getDeterministicAuthenticatorData, List.length_set], ?_⟩
  intro hshort
  unfold getDeterministicAuthenticatorData
  rw [set_past_length data 21 0 (by omega)]
  rw [set_past_length data 22 0 (by omega)]
  rw [set_past_length data 23 0 (by omega)]
  rw [set_past_length data 24 0 (by omega)]

/-- C3 witness: the corrected statement applied at the concrete 10-byte input. -/
theorem c3_witness :
    (List.replicate 10 7).length ≤ 21 ∧
    getDeterministicAuthenticatorData (List.replicate 10 7) = List.replicate 10 7 :=
  ⟨by decide, (c3_no_length_validation (List.replicate 10 7)).2.2 (by decide)⟩

/-- C4: splitting the service input on dots yields segments; with more than
one segment the canonical service label is the second-to-last segment,
otherwise the whole input string unchanged; in particular
"accounts.example.com" canonicalizes to "example" and "myservice" to itself. -/
theorem c4_canonical_label (s : String) :
    (1 < (splitDotStr s).length →
      extractServiceName s = (splitDotStr s).getD ((splitDotStr s).length - 2) "") ∧
    ((splitDotStr s).length ≤ 1 → extractServiceName s = s) ∧
    extractServiceName "accounts.example.com" = "example" ∧
    extractServiceName "myservice" = "myservice" := by
  refine ⟨?_, ?_, by decide, by decide⟩
  · intro h
    show (if 1 < (splitDotStr s).length then
        (splitDotStr s).getD ((splitDotStr s).length - 2) "" else s) = _
    rw [if_pos h]
  · intro h
    show (if 1 < (splitDotStr s).length then
        (splitDotStr s).getD ((splitDotStr s).length - 2) "" else s) = s
    rw [if_neg (by omega)]

/-- C4 witness: the dotted branch of the theorem applied at
"accounts.example.com". -/
theorem c4_witness :
    1 < (splitDotStr "accounts.example.com").length ∧
    extractServiceName "accounts.example.com" =
      (splitDotStr "accounts.example.com").getD
        ((splitDotStr "accounts.example.com").length - 2) "" :=
  ⟨by decide, (c4_canonical_label "accounts.example.com").1 (by decide)⟩

/-- C5 counterexample: for the input "accounts.example.com" the challenge the
code presents to the authenticator is the digest of the full input string,
which differs from the digest of the canonical service label "example" that
the claim prescribes. -/
theorem c5_counterexample :
    generateDeterministicChallenge "accounts.example.com" ≠
      sha256 (utf8Encode (extractServiceName "accounts.example.com")) := by
  decide

/-- C5 corrected: the challenge is the 32-byte SHA-256 digest of the UTF-8
bytes of the full service input string as typed, not of the canonical label;
the two coincide exactly when the input has a single segment, since the
canonical label is then the whole input. -/
theorem c5_challenge_full_string (s : String) :
    generateDeterministicChallenge s = sha256 (utf8Encode s) ∧
    (generateDeterministicChallenge s).length = 32 ∧
    ((splitDotStr s).length ≤ 1 →
      generateDeterministicChallenge s = sha256 (utf8Encode (extractServiceName s))) := by
  refine ⟨rfl, sha256_length _, ?_⟩
  intro h
  have hid : extractServiceName s = s := by
    show (if 1 < (splitDotStr s).length then
        (splitDotStr s).getD ((splitDotStr s).length - 2) "" else s) = s
    rw [if_neg (by omega)]
  rw [hid]
  rfl

/-- C5 witness: the corrected statement applied at the dot-free input
"myservice". -/
theorem c5_witness :
    (splitDotStr "myservice").length ≤ 1 ∧
    generateDeterministicChallenge "myservice" =
      sha256 (utf8Encode (extractServiceName "myservice")) :=
  ⟨by decide, (c5_challenge_full_string "myservice").2.2 (by decide)⟩

set_option maxRecDepth 1000000

/-- C6 counterexample: at a concrete assertion and the service input
"accounts.example.com", the seed the code derives (salt = full domain string,
info = the fixed constant with no version) differs from the seed the claim
describes (salt = canonical label "example", info = constant plus "v1"). -/
theorem c6_counterexample :
    deriveMasterSeed [1, 2, 3] "accounts.example.com" ≠
      specVersionedSeedDerive [1, 2, 3] (extractServiceName "accounts.example.com") 1 := by
  decide

/-- C6 corrected: seed derivation is an HKDF-SHA256 extract-and-expand whose
key material is the normalized assertion bytes, whose salt is the UTF-8 bytes
of the full domain string as entered, and whose info string is the fixed
constant "encryptio-codename-generation" with no version component; it
produces exactly 64 bytes, fully determined by the assertion bytes and the
domain string alone. -/
theorem c6_hkdf_shape (auth : List Nat) (domain : String) :
    deriveMasterSeed auth domain =
      hkdfExpand (hkdfExtract (utf8Encode domain) auth)
        (utf8Encode "encryptio-codename-generation") 64 ∧
    (deriveMasterSeed auth domain).length = 64 :=
  ⟨rfl, hkdfExpand64_length _ _⟩

/-- C7: for every entropy input, service name and version, the stretcher
output is a string of exactly 20 characters, each drawn from the declared
88-character alphabet. -/
theorem c7_length_and_alphabet (entropy : List Nat) (svc : String) (version : Nat) :
    (generatePasswordFromEntropy entropy svc version).length = 20 ∧
    ∀ c ∈ (generatePasswordFromEntropy entropy svc version).data, c ∈ allowedCharsList := by
  rw [password_eq_simple]
  refine ⟨?_, ?_⟩
  · show (((sha256 (seedDataOf entropy svc version)).take 20).map charFromByte).length = 20
    rw [List.length_map, List.length_take, sha256_length]
    omega
  · intro c hc
    have hc2 : c ∈ ((sha256 (seedDataOf entropy svc version)).take 20).map charFromByte := hc
    obtain ⟨b, _, hb⟩ := List.mem_map.mp hc2
    rw [← hb]
    exact charFromByte_mem b

/-- C7 witness: alphabet membership applied to the first character of a
concretely computed password, plus its length. -/
theorem c7_witness :
    ((generatePasswordFromEntropy [5, 6] "example.com" 1).data.getD 0 'A') ∈
      (generatePasswordFromEntropy [5, 6] "example.com" 1).data ∧
    ((generatePasswordFromEntropy [5, 6] "example.com" 1).data.getD 0 'A') ∈
      allowedCharsList := by
  refine ⟨by decide, ?_⟩
  exact (c7_length_and_alphabet [5, 6] "example.com" 1).2 _ (by decide)

/-- C8 counterexample: from the initial state, the two-step schedule in which
call 1 starts and then call 2 starts while call 1 still awaits the
authenticator is a valid execution of `generatePassword`, and it reaches a
state in which both calls have an authenticator interaction in flight; the
second call was neither queued nor rejected with a Busy error. -/
theorem c8_counterexample :
    Relation.ReflTransGen CoordStep coordInit
      { creds := true, isGenerating := true,
        task1 := TaskPhase.waitingAuth, task2 := TaskPhase.waitingAuth } ∧
    ({ creds := true, isGenerating := true,
       task1 := TaskPhase.waitingAuth, task2 := TaskPhase.waitingAuth } : CoordState).task1 =
      TaskPhase.waitingAuth ∧
    ({ creds := true, isGenerating := true,
       task1 := TaskPhase.waitingAuth, task2 := TaskPhase.waitingAuth } : CoordState).task2 =
      TaskPhase.waitingAuth := by
  refine ⟨?_, rfl, rfl⟩
  have h1 : CoordStep coordInit
      { creds := true, isGenerating := true,
        task1 := TaskPhase.waitingAuth, task2 := TaskPhase.idle } :=
    CoordStep.start1 coordInit rfl rfl
  have h2 : CoordStep
      { creds := true, isGenerating := true,
        task1 := TaskPhase.waitingAuth, task2 := TaskPhase.idle }
      { creds := true, isGenerating := true,
        task1 := TaskPhase.waitingAuth, task2 := TaskPhase.waitingAuth } :=
    CoordStep.start2
      { creds := true, isGenerating := true,
        task1 := TaskPhase.waitingAuth, task2 := TaskPhase.idle } rfl rfl
  exact Relation.ReflTransGen.head h1 (Relation.ReflTransGen.single h2)

/-- C8 corrected: `generatePassword` neither queues a concurrent call nor
rejects it with a Busy error: whenever credentials are registered and the
second call has not started, its start step is enabled regardless of the
`isGenerating` flag and of the phase of the first call, and taking it while
the first call awaits the authenticator leaves both interactions in flight. -/
theorem c8_no_serialization (s : CoordState) (hc : s.creds = true)
    (h2 : s.task2 = TaskPhase.idle) :
    CoordStep s { s with isGenerating := true, task2 := TaskPhase.waitingAuth } ∧
    (s.task1 = TaskPhase.waitingAuth →
      ({ s with isGenerating := true, task2 := TaskPhase.waitingAuth }).task1 =
          TaskPhase.waitingAuth ∧
      ({ s with isGenerating := true, task2 := TaskPhase.waitingAuth }).task2 =
          TaskPhase.waitingAuth) := by
  refine ⟨CoordStep.start2 s hc h2, ?_⟩
  intro h1
  exact ⟨h1, rfl⟩

/-- C8 witness: the corrected statement applied at the state where call 1 is
already awaiting the authenticator. -/
theorem c8_witness :
    ({ creds := true, isGenerating := true, task1 := TaskPhase.waitingAuth,
       task2 := TaskPhase.idle } : CoordState).creds = true ∧
    ({ creds := true, isGenerating := true, task1 := TaskPhase.waitingAuth,
       task2 := TaskPhase.idle } : CoordState).task2 = TaskPhase.idle ∧
    CoordStep
      { creds := true, isGenerating := true, task1 := TaskPhase.waitingAuth,
        task2 := TaskPhase.idle }
      { creds := true, isGenerating := true, task1 := TaskPhase.waitingAuth,
        task2 := TaskPhase.waitingAuth } :=
  ⟨rfl, rfl,
    (c8_no_serialization
      { creds := true, isGenerating := true, task1 := TaskPhase.waitingAuth,
        task2 := TaskPhase.idle } rfl rfl).1⟩

/-- C9: after any sequence of generate, remove and clear operations starting
from the empty store, the password list holds at most 100 entries and at most
one entry per (service, version) key; moreover a generate call whose key is
already stored replaces that entry in place, leaving the length unchanged. -/
theorem c9_store_invariant :
    (∀ ops : List StoreOp,
      (runOps ops).length ≤ 100 ∧ ((runOps ops).map entryKey).Nodup) ∧
    (∀ (l : List GeneratedPassword) (s : String) (v : Nat) (pw : String)
        (g : Nat) (cid : String),
      (s, v) ∈ l.map entryKey → l.length ≤ 100 →
      (storeInsert ⟨s, pw, v, g, cid⟩ l).length = l.length) := by
  constructor
  · intro ops
    exact foldl_applyOp_inv ops [] ⟨by simp, by simp⟩
  · intro l s v pw g cid hmem hlen
    exact storeInsert_length_of_mem ⟨s, pw, v, g, cid⟩ l hmem hlen

/-- C9 witness: replacing the single stored entry for key ("a", 1) keeps the
list at length one. -/
theorem c9_witness :
    (("a", 1) ∈ ([⟨"a", "p", 1, 0, "c"⟩] : List GeneratedPassword).map entryKey) ∧
    ([⟨"a", "p", 1, 0, "c"⟩] : List GeneratedPassword).length ≤ 100 ∧
    (storeInsert ⟨"a", "q", 1, 5, "d"⟩ [⟨"a", "p", 1, 0, "c"⟩]).length =
      ([⟨"a", "p", 1, 0, "c"⟩] : List GeneratedPassword).length := by
  refine ⟨by decide, by decide, ?_⟩
  exact c9_store_invariant.2 [⟨"a", "p", 1, 0, "c"⟩] "a" 1 "q" 5 "d" (by decide) (by decide)

/-- C10: because one SHA-256 digest supplies 32 bytes and the output length is
fixed at 20, the refill branch of the stretcher never executes: the full
stretcher is extensionally equal to the simple function mapping each of the
first 20 bytes of SHA-256(entropy || canonical-label bytes || version bytes)
through byte mod alphabet length to the alphabet character. -/
theorem c10_refill_dead (entropy : List Nat) (svc : String) (version : Nat) :
    generatePasswordFromEntropy entropy svc version = specSimpleStretch entropy svc version :=
  password_eq_simple entropy svc version
